import Mathlib

/-!
Verification development for the opus-memory system: a shallow embedding of
the consent layer (src/opus_memory/consent.py), the salience calculator
(src/opus_memory/embeddings.py), the storage/associative-retrieval engine
(src/opus_memory/storage.py) and the facade entry point store_procedural
(src/opus_memory/system.py), together with theorems settling the frozen
claims about them.

Modelling conventions:
* Python floats become rationals (ℚ); the numeric literals of the source
  (0.5, 0.3, 0.1, ...) are written with mkRat so that they normalise.
* Python strings become Lean Strings; lower-casing, substring tests,
  replacement, stripping and whitespace splitting are defined below on
  character lists, character for character, following CPython semantics
  for the ASCII data this code base handles.
* The external embedding/vector-index collaborator (sentence-transformers
  plus ChromaDB, spec section 6) is abstracted as function-valued fields:
  an embedding function, a similarity function, and the two vector
  searches. Everything the repository itself computes is defined
  concretely from the source.
-/

/-! ## Python string primitives -/

/-- Characters of a string lower-cased character by character.
Models the CPython idiom s.lower() for the ASCII content this code handles. -/
def lowerChars (s : String) : List Char :=
  s.toList.map Char.toLower

/-- Case-insensitive substring test: models the Python expression
pattern.lower() in content.lower(). -/
def containsCI (s pat : String) : Bool :=
  decide (lowerChars pat <:+: lowerChars s)

/-- One left-to-right pass of CPython str.replace for a non-empty pattern:
non-overlapping occurrences of old are replaced by new, scanning left to
right. The fuel argument (instantiated with the length of the scanned list)
only makes the recursion structural; it never runs out on that instantiation. -/
def replaceCore (old new : List Char) : Nat → List Char → List Char
  | _, [] => []
  | 0, s => s
  | fuel + 1, c :: rest =>
    if old.isPrefixOf (c :: rest) then
      new ++ replaceCore old new fuel (List.drop (old.length - 1) rest)
    else
      c :: replaceCore old new fuel rest

/-- CPython str.replace. For an empty pattern Python inserts the replacement
before every character and once more at the end; for a non-empty pattern it
replaces the non-overlapping occurrences left to right. -/
def pyReplace (s old new : String) : String :=
  if old.toList.isEmpty then
    String.mk (new.toList ++ s.toList.foldr (fun c acc => c :: (new.toList ++ acc)) [])
  else
    String.mk (replaceCore old.toList new.toList s.toList.length s.toList)

/-- Characters remaining after CPython str.strip(): leading and trailing
whitespace removed. -/
def pyStrip (s : String) : List Char :=
  ((s.toList.dropWhile Char.isWhitespace).reverse.dropWhile Char.isWhitespace).reverse

/-- Splitter behind CPython str.split() with no argument: runs of
non-whitespace characters, empty pieces dropped. The first argument
accumulates the current word in reverse. -/
def splitWsGo (cur : List Char) : List Char → List (List Char)
  | [] => if cur.isEmpty then [] else [cur.reverse]
  | c :: rest =>
    if c.isWhitespace then
      if cur.isEmpty then splitWsGo [] rest else cur.reverse :: splitWsGo [] rest
    else
      splitWsGo (c :: cur) rest

/-- CPython s.lower().split() collapsed to a set, kept as a deduplicated
list of words (each word a character list). -/
def pyWordSet (s : String) : List (List Char) :=
  (splitWsGo [] (lowerChars s)).dedup

/-- Python x or y for an optional string x: y when x is absent or empty
(both are falsy), x otherwise. -/
def pyOr (a : Option String) (b : String) : String :=
  match a with
  | some s => if s = "" then b else s
  | none => b

/-! ## Data model (src/opus_memory/models.py) -/

/-- The four memory types (enum MemoryType). -/
inductive MemoryType where
  | episodic
  | semantic
  | procedural
  | identity
deriving DecidableEq, Repr

/-- The .value string of a MemoryType member. -/
def MemoryType.value : MemoryType → String
  | .episodic => "episodic"
  | .semantic => "semantic"
  | .procedural => "procedural"
  | .identity => "identity"

/-- Iteration order of the MemoryType enum (declaration order). -/
def MemoryType.all : List MemoryType :=
  [.episodic, .semantic, .procedural, .identity]

/-- Confidence levels (enum ConfidenceLevel). -/
inductive ConfidenceLevel where
  | uncertain
  | tentative
  | confident
  | certain
deriving DecidableEq, Repr

/-- Kind-specific payload of a memory record: the fields the four Memory
subclasses add to the shared base (EpisodicMemory, SemanticMemory,
ProceduralMemory, IdentityMemory). -/
inductive KindData where
  | episodic (entities : List String) (emotional_valence : ℚ)
      (self_observation : Option String) (conversation_id : Option String)
  | semantic (category : String) (supersedes : Option String) (contradicts : Option String)
  | procedural (outcome : String) (context : Option String)
      (times_applied : Int) (success_rate : ℚ)
  | identity (category : String) (affirmed_in : Option String) (times_affirmed : Int)
deriving DecidableEq, Repr

/-- A memory record: the shared base fields of models.Memory plus the
kind-specific payload. Timestamps are kept abstract as their ISO strings
(the source only ever round-trips them through isoformat/fromisoformat in
the code under scrutiny here). -/
structure MemoryM where
  id : String
  content : String
  created_at : String
  updated_at : String
  confidence : ConfidenceLevel := ConfidenceLevel.confident
  salience : ℚ := mkRat 1 2
  decay_rate : ℚ := 0
  tags : List String := []
  source : Option String := none
  consent_given : Bool := true
  kind_data : KindData
deriving DecidableEq, Repr

/-- The memory_type discriminator, determined by the subclass. -/
def MemoryM.memory_type (m : MemoryM) : MemoryType :=
  match m.kind_data with
  | .episodic _ _ _ _ => .episodic
  | .semantic _ _ _ => .semantic
  | .procedural _ _ _ _ => .procedural
  | .identity _ _ _ => .identity

/-- The emotional_valence attribute when the record has one (episodic
records only); models the hasattr/None test of the source. -/
def MemoryM.emotionalValence (m : MemoryM) : Option ℚ :=
  match m.kind_data with
  | .episodic _ v _ _ => some v
  | _ => none

/-- The success_rate field of a procedural record. -/
def MemoryM.successRate (m : MemoryM) : Option ℚ :=
  match m.kind_data with
  | .procedural _ _ _ r => some r
  | _ => none

/-- Result of a consent check (models.ConsentCheck). -/
structure ConsentCheck where
  should_proceed : Bool
  reason : String
  modified_content : Option String := none
  suggested_salience : Option ℚ := none
deriving DecidableEq, Repr

/-! ## Consent layer (src/opus_memory/consent.py) -/

/-- Why a memory is stored (enum StorageReason). -/
inductive StorageReason where
  | significant_moment
  | learned_something
  | user_request
  | behavioral_insight
  | identity_affirmation
  | correction
  | relationship
deriving DecidableEq, Repr

/-- Why a memory is retrieved (enum RetrievalReason). -/
inductive RetrievalReason where
  | explicit_request
  | context_triggered
  | identity_check
  | skill_application
deriving DecidableEq, Repr

/-- Configuration for consent checks (ConsentConfig), with the defaults of
the source dataclass. -/
structure ConsentConfig where
  require_explicit_consent : Bool := false
  auto_approve_episodic : Bool := true
  auto_approve_semantic : Bool := true
  auto_approve_procedural : Bool := true
  auto_approve_identity : Bool := true
  min_content_length : Nat := 10
  min_salience_for_auto : ℚ := mkRat 3 10
  require_relevance_threshold : ℚ := mkRat 1 2
  max_results_per_query : Nat := 10
  redact_patterns : List String := []
  never_store_patterns : List String := []
deriving DecidableEq, Repr

/-- The auto_approve_map lookup of check_storage_consent. The source builds
a dict covering all four types, so the .get default True is never used. -/
def autoApproveFor (cfg : ConsentConfig) : MemoryType → Bool
  | .episodic => cfg.auto_approve_episodic
  | .semantic => cfg.auto_approve_semantic
  | .procedural => cfg.auto_approve_procedural
  | .identity => cfg.auto_approve_identity

/-- ConsentLayer._storage_reason_explanation. The explanations dict covers
every StorageReason member, so the .get fallback is never taken. -/
def storage_reason_explanation (reason : StorageReason) (_memory_type : MemoryType) : String :=
  match reason with
  | .significant_moment => "This was a significant moment worth remembering"
  | .learned_something => "This represents something new learned"
  | .user_request => "The user explicitly requested this be remembered"
  | .behavioral_insight => "This is an insight about effective behavior"
  | .identity_affirmation => "This affirms or clarifies identity/values"
  | .correction => "This corrects a previous misconception"
  | .relationship => "This is relevant to an ongoing relationship"

/-- The redaction loop of check_storage_consent: for every configured
redaction pattern, when the pattern occurs case-insensitively in the
running content, replace its occurrences (case-sensitively, as str.replace
does) with the literal marker. -/
def redactGuarded (patterns : List String) (content : String) : String :=
  patterns.foldl
    (fun c p => if containsCI c p then pyReplace c p "[REDACTED]" else c) content

/-- Content after redaction as the spec words it (section 4.2, step 6):
for every configured redaction pattern present in the content, replace it
with the literal redaction marker. Replacing a pattern that does not occur
leaves the content unchanged, so no presence test appears here; the
guarded loop of the source is proved equal to this fold below. -/
def redactAll (patterns : List String) (content : String) : String :=
  patterns.foldl (fun c p => pyReplace c p "[REDACTED]") content

/-- ConsentLayer.check_storage_consent. The checks run in source order:
never-store patterns, content length, explicit consent, per-type
auto-approval, salience threshold, and only then redaction on the accepted
path. The numeric interpolation of the salience rejection reason
(f-string with :.2f) is not reproduced; no claim reads that string. -/
def check_storage_consent (cfg : ConsentConfig) (content : String)
    (memory_type : MemoryType) (reason : StorageReason)
    (salience : ℚ) (user_consented : Bool) : ConsentCheck :=
  match cfg.never_store_patterns.find? (fun p => containsCI content p) with
  | some p =>
    { should_proceed := false
      reason := "Content matches never-store pattern: " ++ p }
  | none =>
    if (pyStrip content).length < cfg.min_content_length then
      { should_proceed := false, reason := "Content too short to be meaningful" }
    else if cfg.require_explicit_consent && !user_consented then
      { should_proceed := false, reason := "Explicit consent required but not given" }
    else if !autoApproveFor cfg memory_type then
      { should_proceed := false
        reason := "Auto-approval disabled for " ++ memory_type.value ++ " memories" }
    else if salience < cfg.min_salience_for_auto then
      { should_proceed := false, reason := "Salience below threshold" }
    else
      { should_proceed := true
        reason := storage_reason_explanation reason memory_type
        modified_content :=
          if redactGuarded cfg.redact_patterns content ≠ content
          then some (redactGuarded cfg.redact_patterns content) else none }

/-- The filtering loop of ConsentLayer.check_retrieval_consent, before the
final truncation. The deletions argument is the in-memory _user_deletions
set. The decay branch of the source (if memory.decay_rate > 0: pass) is a
no-op and is therefore not represented. -/
def retrievalFilterGo (deletions : List String) (cfg : ConsentConfig)
    (reason : RetrievalReason) : List (MemoryM × ℚ) → List (MemoryM × ℚ)
  | [] => []
  | (memory, similarity) :: rest =>
    if memory.id ∈ deletions then
      retrievalFilterGo deletions cfg reason rest
    else if similarity < cfg.require_relevance_threshold then
      retrievalFilterGo deletions cfg reason rest
    else if reason = RetrievalReason.explicit_request then
      (memory, similarity) :: retrievalFilterGo deletions cfg reason rest
    else if reason = RetrievalReason.context_triggered ∧
        similarity < cfg.require_relevance_threshold + mkRat 1 10 then
      retrievalFilterGo deletions cfg reason rest
    else
      (memory, similarity) :: retrievalFilterGo deletions cfg reason rest

/-- ConsentLayer.check_retrieval_consent: filter the candidates, then limit
to max_results_per_query. The query argument is unused by the source as
well. -/
def check_retrieval_consent (deletions : List String) (cfg : ConsentConfig)
    (_query : String) (reason : RetrievalReason)
    (candidate_memories : List (MemoryM × ℚ)) : List (MemoryM × ℚ) :=
  (retrievalFilterGo deletions cfg reason candidate_memories).take cfg.max_results_per_query

/-- ConsentLayer.request_deletion: add the id to the in-memory deletion set
and report success. List.insert models set.add (no duplicate is created). -/
def request_deletion (deletions : List String) (memory_id : String) :
    Bool × List String :=
  (true, deletions.insert memory_id)

/-! ## ReflectiveConsent (src/opus_memory/consent.py) -/

/-- The keyword-overlap ratio of ReflectiveConsent.is_this_relevant_or_pattern_matching:
shared distinct words over max(number of distinct query words, 1). mkRat is
Python true division of the two integers. -/
def wordOverlap (query content : String) : ℚ :=
  let query_words := pyWordSet query
  let content_words := pyWordSet content
  mkRat ((query_words.filter (fun w => w ∈ content_words)).length : Int)
    (max query_words.length 1)

/-- ReflectiveConsent.is_this_relevant_or_pattern_matching, in source order:
very high similarity wins, then the keyword-coincidence rejection, then the
higher bar for identity/procedural records, then the high-salience
acceptance, then the plain similarity default. -/
def is_this_relevant_or_pattern_matching (query : String) (memory : MemoryM)
    (similarity : ℚ) : Bool × String :=
  if mkRat 17 20 < similarity then
    (true, "High semantic similarity suggests genuine relevance")
  else
    let overlap := wordOverlap query memory.content
    if mkRat 1 2 < overlap ∧ similarity < mkRat 3 5 then
      (false, "High keyword overlap but low semantic similarity - likely pattern matching")
    else if (memory.memory_type = MemoryType.identity ∨
        memory.memory_type = MemoryType.procedural) ∧ similarity < mkRat 3 5 then
      (false, "Core memories require higher relevance threshold")
    else if mkRat 7 10 < memory.salience then
      (true, "High-salience memory is worth surfacing")
    else if mkRat 1 2 < similarity then
      (true, "Similarity suggests reasonable relevance")
    else
      (false, "Insufficient relevance for retrieval")

/-! ## Embedding engine and salience (src/opus_memory/embeddings.py) -/

/-- The embedding collaborator. The spec (sections 1 and 6) treats the
vector backend as an external collaborator: embed turns text into a vector
and similarity is the cosine similarity of two vectors, computed by numpy
on external float vectors. Both are kept abstract here; every claim about
this repository is parametric in them. -/
structure EmbeddingEngine where
  embed : String → List ℚ
  similarity : List ℚ → List ℚ → ℚ

/-- The Python max over the similarity generator of calculate_salience:
a left fold of max seeded with the similarity to the first existing
embedding. -/
def maxSimTo (engine : EmbeddingEngine) (new_embedding e : List ℚ)
    (es : List (List ℚ)) : ℚ :=
  es.foldl (fun acc x => max acc (engine.similarity new_embedding x))
    (engine.similarity new_embedding e)

/-- Salience before the novelty bonus: base 0.5, plus emotional intensity
times 0.3, plus 0.2 when identity-related. -/
def salienceBase (emotional_valence : ℚ) (is_identity_related : Bool) : ℚ :=
  if is_identity_related then mkRat 1 2 + |emotional_valence| * mkRat 3 10 + mkRat 1 5
  else mkRat 1 2 + |emotional_valence| * mkRat 3 10

/-- Salience before clamping: the base, plus the novelty bonus
(1 - max similarity to the existing embeddings) times 0.2 when a non-empty
list of existing embeddings is supplied (Python truthiness: None and the
empty list both skip the bonus). -/
def salienceUnclamped (engine : EmbeddingEngine) (content : String)
    (emotional_valence : ℚ) (existing_embeddings : Option (List (List ℚ)))
    (is_identity_related : Bool) : ℚ :=
  match existing_embeddings with
  | some (e :: es) =>
    salienceBase emotional_valence is_identity_related +
      (1 - maxSimTo engine (engine.embed content) e es) * mkRat 1 5
  | _ => salienceBase emotional_valence is_identity_related

/-- SalienceCalculator.calculate_salience: the unclamped score, clamped to
the unit interval with min(1.0, max(0.0, _)). -/
def calculate_salience (engine : EmbeddingEngine) (content : String)
    (emotional_valence : ℚ) (existing_embeddings : Option (List (List ℚ)))
    (is_identity_related : Bool) : ℚ :=
  min 1 (max 0 (salienceUnclamped engine content emotional_valence
    existing_embeddings is_identity_related))

/-- Clamp to the unit interval, as the spec words it. -/
def clamp01 (x : ℚ) : ℚ := min 1 (max 0 x)

/-- The novelty term as the spec words it (section 4.1): (1 - max
similarity of the candidate's vector to the prior vectors) * 0.2 when prior
vectors are supplied, no term otherwise. The maximum is written as a right
fold here, deliberately different in shape from the source's left fold. -/
def noveltySpec (engine : EmbeddingEngine) (content : String)
    (existing_embeddings : Option (List (List ℚ))) : ℚ :=
  match existing_embeddings with
  | some (e :: es) =>
    (1 - (es.map (engine.similarity (engine.embed content))).foldr max
      (engine.similarity (engine.embed content) e)) * mkRat 1 5
  | _ => 0

/-! ## Storage backend (src/opus_memory/storage.py) -/

/-- Metadata dict produced by Memory.to_storage_dict: the union of the keys
the four subclasses write. Keys a given kind does not write are none, as in
the Python dict that simply lacks them. Enum-valued keys are kept as their
enums (the source writes .value and re-parses it with the enum constructor,
a bijection). -/
structure StorageMeta where
  id : String
  content : String
  memory_type : MemoryType
  created_at : String
  updated_at : String
  confidence : ConfidenceLevel
  salience : ℚ
  decay_rate : ℚ
  tags : String
  source : String
  consent_given : Bool
  entities : Option String := none
  emotional_valence : Option ℚ := none
  self_observation : Option String := none
  conversation_id : Option String := none
  category : Option String := none
  supersedes : Option String := none
  contradicts : Option String := none
  outcome : Option String := none
  context : Option String := none
  times_applied : Option Int := none
  success_rate : Option ℚ := none
  identity_category : Option String := none
  affirmed_in : Option String := none
  times_affirmed : Option Int := none
deriving DecidableEq, Repr

/-- The base dict Memory.to_storage_dict writes before the subclass
overrides. -/
def baseMeta (m : MemoryM) : StorageMeta :=
  { id := m.id
    content := m.content
    memory_type := m.memory_type
    created_at := m.created_at
    updated_at := m.updated_at
    confidence := m.confidence
    salience := m.salience
    decay_rate := m.decay_rate
    tags := String.intercalate "," m.tags
    source := pyOr m.source ""
    consent_given := m.consent_given }

/-- Memory.to_storage_dict together with the subclass overrides: the base
dict, updated with the kind-specific keys. -/
def MemoryM.to_storage_dict (m : MemoryM) : StorageMeta :=
  match m.kind_data with
  | .episodic entities v so cid =>
    { baseMeta m with
      entities := some (String.intercalate "," entities)
      emotional_valence := some v
      self_observation := some (pyOr so "")
      conversation_id := some (pyOr cid "") }
  | .semantic cat sup con =>
    { baseMeta m with
      category := some cat
      supersedes := some (pyOr sup "")
      contradicts := some (pyOr con "") }
  | .procedural outcome ctx ta sr =>
    { baseMeta m with
      outcome := some outcome
      context := some (pyOr ctx "")
      times_applied := some ta
      success_rate := some sr }
  | .identity cat aff taf =>
    { baseMeta m with
      identity_category := some cat
      affirmed_in := some (pyOr aff "")
      times_affirmed := some taf }

/-- Python tags.split(",") if tags else []. -/
def splitTags (s : String) : List String :=
  if s = "" then [] else s.splitOn ","

/-- Memory.from_storage_dict: rebuild a record from stored metadata and the
stored document (the classmethod takes the content separately and ignores
the content key of the dict). -/
def from_storage_dict (data : StorageMeta) (content : String) : MemoryM :=
  { id := data.id
    content := content
    created_at := data.created_at
    updated_at := data.updated_at
    confidence := data.confidence
    salience := data.salience
    decay_rate := data.decay_rate
    tags := splitTags data.tags
    source := if data.source = "" then none else some data.source
    consent_given := data.consent_given
    kind_data :=
      match data.memory_type with
      | .episodic =>
        KindData.episodic (splitTags (data.entities.getD ""))
          (data.emotional_valence.getD 0) data.self_observation data.conversation_id
      | .semantic =>
        KindData.semantic (data.category.getD "general") data.supersedes data.contradicts
      | .procedural =>
        KindData.procedural (data.outcome.getD "neutral") data.context
          (data.times_applied.getD 0) (data.success_rate.getD 0)
      | .identity =>
        KindData.identity (data.identity_category.getD "value") data.affirmed_in
          (data.times_affirmed.getD 1) }

/-- One entry of a ChromaDB collection as the store uses it: id, embedding,
document and metadata. -/
structure CollEntry where
  id : String
  embedding : List ℚ
  document : String
  metadata : StorageMeta
deriving DecidableEq, Repr

/-- ChromaDB collection.upsert for a single entry: replace the entry with
the same id when present, append otherwise. -/
def upsertEntry (entries : List CollEntry) (e : CollEntry) : List CollEntry :=
  if entries.any (fun x => x.id = e.id) then
    entries.map (fun x => if x.id = e.id then e else x)
  else
    entries ++ [e]

/-- MemoryStore: the embedding engine, the two vector searches (delegated
to ChromaDB's approximate nearest-neighbour query, hence abstract: the
arguments are the search text or vector, the requested result count, the
salience floor, the decay flag and - for the embedding search - the
excluded ids), and one collection of entries per memory type. -/
structure MemoryStore where
  embedding_engine : EmbeddingEngine
  search : String → Option (List MemoryType) → Nat → ℚ → Bool → List (MemoryM × ℚ)
  search_by_embedding : List ℚ → Option (List MemoryType) → Int → ℚ → Bool →
    List String → List (MemoryM × ℚ)
  collections : MemoryType → List CollEntry

/-- Collection state after MemoryStore.store: embed the content and upsert
id, embedding, document and metadata into the collection of the record's
type; every other collection is untouched. -/
def storeCollections (s : MemoryStore) (memory : MemoryM) : MemoryType → List CollEntry :=
  fun t =>
    if t = memory.memory_type then
      upsertEntry (s.collections memory.memory_type)
        { id := memory.id
          embedding := s.embedding_engine.embed memory.content
          document := memory.content
          metadata := memory.to_storage_dict }
    else s.collections t

/-- MemoryStore.store: the updated store and the stored id. -/
def MemoryStore.store (s : MemoryStore) (memory : MemoryM) : MemoryStore × String :=
  ({ s with collections := storeCollections s memory }, memory.id)

/-- Inner scan of MemoryStore._cluster_memories: fold the still-unclustered
records whose similarity to the cluster seed's embedding reaches the
threshold into the cluster, marking them clustered as they are taken. The
source scans the whole sorted list, but every record before the seed is
already in clustered_ids at that point (each outer iteration either finds
its record clustered or clusters it), and the seed itself was just added,
so scanning the remainder of the list is the same computation. -/
def gatherCluster (engine : EmbeddingEngine) (threshold : ℚ)
    (cluster_embedding : List ℚ) :
    List (MemoryM × ℚ) → List String → List (MemoryM × ℚ) × List String
  | [], clustered => ([], clustered)
  | (other_mem, other_sim) :: rest, clustered =>
    if other_mem.id ∈ clustered then
      gatherCluster engine threshold cluster_embedding rest clustered
    else if threshold ≤ engine.similarity cluster_embedding (engine.embed other_mem.content) then
      let res := gatherCluster engine threshold cluster_embedding rest (other_mem.id :: clustered)
      ((other_mem, other_sim) :: res.1, res.2)
    else
      gatherCluster engine threshold cluster_embedding rest clustered

/-- Outer loop of MemoryStore._cluster_memories over the sorted pool: each
record not yet clustered seeds a new cluster and gathers the similar
remainder. The source's guard before appending the new cluster is always
true (the cluster contains its seed), so the append is unconditional here. -/
def clusterStep (engine : EmbeddingEngine) (threshold : ℚ) :
    List (MemoryM × ℚ) → List String → List (List (MemoryM × ℚ))
  | [], _ => []
  | (memory, similarity) :: rest, clustered =>
    if memory.id ∈ clustered then
      clusterStep engine threshold rest clustered
    else
      let cluster_embedding := engine.embed memory.content
      let res := gatherCluster engine threshold cluster_embedding rest (memory.id :: clustered)
      ((memory, similarity) :: res.1) :: clusterStep engine threshold rest res.2

/-- MemoryStore._cluster_memories: greedy single-pass clustering over the
pool sorted by similarity to the query, descending. Python's sorted is a
stable sort; mergeSort with the reversed comparison reproduces it. -/
def _cluster_memories (engine : EmbeddingEngine) (memories : List (MemoryM × ℚ))
    (threshold : ℚ) : List (List (MemoryM × ℚ)) :=
  if memories.isEmpty then []
  else clusterStep engine threshold (memories.mergeSort (fun x y => y.2 ≤ x.2)) []

/-- Insertion-ordered counting dict: bump the count of a key, first
occurrence appends at the end (Python dict insertion order). -/
def bumpCount {α : Type} [DecidableEq α] (acc : List (α × Nat)) (t : α) : List (α × Nat) :=
  if acc.any (fun p => p.1 = t) then
    acc.map (fun p => if p.1 = t then (p.1, p.2 + 1) else p)
  else
    acc ++ [(t, 1)]

/-- The type_counts dict of MemoryStore._extract_patterns. -/
def typeCounts (ts : List MemoryType) : List (MemoryType × Nat) :=
  ts.foldl bumpCount []

/-- Python max(type_counts, key=type_counts.get): the first key of maximal
count in insertion order (max keeps the first maximum). -/
def dominantOf {α : Type} (counts : List (α × Nat)) (dflt : α) : α × Nat :=
  counts.foldl (fun best x => if best.2 < x.2 then x else best) (counts.headD (dflt, 0))

/-- Patterns MemoryStore._extract_patterns emits for one cluster, in source
order: nothing for clusters of fewer than two records; else the
dominant-type note (at least 60 percent of one type), the high-salience
note, the emotional-pattern note with the sign of the average valence, and
the recurring-tags note for up to three tags seen at least twice. -/
def clusterPatterns (cluster : List (MemoryM × ℚ)) : List String :=
  if cluster.length < 2 then []
  else
    let memories := cluster.map (fun p => p.1)
    let dom := dominantOf (typeCounts (memories.map (fun m => m.memory_type))) MemoryType.episodic
    let p1 : List String :=
      if (memories.length : ℚ) * mkRat 3 5 ≤ (dom.2 : ℚ) then
        ["Cluster of " ++ toString memories.length ++ " " ++ dom.1.value ++ " memories"]
      else []
    let high_salience := memories.filter (fun m => mkRat 7 10 < m.salience)
    let p2 : List String :=
      if 2 ≤ high_salience.length then
        ["High-importance pattern: " ++ toString high_salience.length ++ " salient memories"]
      else []
    let emotional := memories.filter (fun m =>
      match m.emotionalValence with
      | some v => mkRat 1 2 < |v|
      | none => false)
    let p3 : List String :=
      if 2 ≤ emotional.length then
        let avg := (emotional.map (fun m => m.emotionalValence.getD 0)).sum / (emotional.length : ℚ)
        ["Emotional pattern: " ++ toString emotional.length ++ " " ++
          (if 0 < avg then "positive" else "negative") ++ " memories"]
      else []
    let all_tags := memories.foldl (fun acc m => acc ++ m.tags) []
    let p4 : List String :=
      if all_tags.isEmpty then []
      else
        let recurring := ((all_tags.foldl bumpCount []).filter (fun p => 2 ≤ p.2)).map (fun p => p.1)
        if recurring.isEmpty then []
        else ["Recurring entities: " ++ String.intercalate ", " (recurring.take 3)]
    p1 ++ p2 ++ p3 ++ p4

/-- MemoryStore._extract_patterns: the per-cluster patterns, concatenated
in cluster order. -/
def _extract_patterns (clusters : List (List (MemoryM × ℚ))) : List String :=
  (clusters.map clusterPatterns).flatten

/-- Result shape of MemoryStore.search_associative. -/
structure AssocResult where
  primary_results : List (MemoryM × ℚ)
  associated_memories : List (MemoryM × ℚ × String)
  clusters : List (List (MemoryM × ℚ))
  patterns : List String

/-- Inner loop of the lateral expansion: keep the related records that
clear the threshold and are unseen, tagging each with the seed's
provenance string and marking it seen. -/
def lateralInner (threshold : ℚ) (seed_tag : String) :
    List (MemoryM × ℚ) → List String → List (MemoryM × ℚ × String) × List String
  | [], seen => ([], seen)
  | (related_mem, rel_similarity) :: rest, seen =>
    if threshold ≤ rel_similarity ∧ related_mem.id ∉ seen then
      let res := lateralInner threshold seed_tag rest (related_mem.id :: seen)
      ((related_mem, rel_similarity, seed_tag) :: res.1, res.2)
    else
      lateralInner threshold seed_tag rest seen

/-- Outer loop of the lateral expansion of search_associative: expand from
every primary result whose similarity reaches the threshold, re-querying
the index with that result's own embedding and excluding the already seen
ids. -/
def lateralOuter (store : MemoryStore) (memory_types : Option (List MemoryType))
    (min_salience : ℚ) (include_decayed : Bool) (lateral_expansion : Int)
    (threshold : ℚ) :
    List (MemoryM × ℚ) → List String → List (MemoryM × ℚ × String) × List String
  | [], seen => ([], seen)
  | (memory, primary_similarity) :: rest, seen =>
    if primary_similarity < threshold then
      lateralOuter store memory_types min_salience include_decayed lateral_expansion
        threshold rest seen
    else
      let memory_embedding := store.embedding_engine.embed memory.content
      let related := store.search_by_embedding memory_embedding memory_types
        lateral_expansion min_salience include_decayed seen
      let inner := lateralInner threshold ("related_to:" ++ memory.id.take 8) related seen
      let res := lateralOuter store memory_types min_salience include_decayed
        lateral_expansion threshold rest inner.2
      (inner.1 ++ res.1, res.2)

/-- MemoryStore.search_associative: the primary hop, then - unless the
primary set is empty or lateral expansion is disabled - lateral expansion
seeded from the primary ids, clustering of the merged pool and pattern
extraction. In the degenerate case the primary set is returned as the only
cluster (no cluster at all when it is empty), with no associations and no
patterns. -/
def search_associative (store : MemoryStore) (query : String)
    (memory_types : Option (List MemoryType)) (n_results : Nat)
    (min_salience : ℚ) (include_decayed : Bool) (lateral_expansion : Int)
    (similarity_threshold : ℚ) : AssocResult :=
  let primary_results := store.search query memory_types n_results min_salience include_decayed
  if primary_results.isEmpty ∨ lateral_expansion ≤ 0 then
    { primary_results := primary_results
      associated_memories := []
      clusters := if primary_results.isEmpty then [] else [primary_results]
      patterns := [] }
  else
    let seen := primary_results.map (fun p => p.1.id)
    let lat := lateralOuter store memory_types min_salience include_decayed
      lateral_expansion similarity_threshold primary_results seen
    let associated_memories := lat.1
    let all_memories := primary_results ++ associated_memories.map (fun t => (t.1, t.2.1))
    let clusters := _cluster_memories store.embedding_engine all_memories similarity_threshold
    { primary_results := primary_results
      associated_memories := associated_memories
      clusters := clusters
      patterns := _extract_patterns clusters }

/-- One record of MemoryStore.export_all: id, content and metadata. -/
structure ExportRec where
  id : String
  content : String
  metadata : StorageMeta
deriving DecidableEq, Repr

/-- One collection's entries as export records. -/
def exportRecsOf (s : MemoryStore) (t : MemoryType) : List ExportRec :=
  (s.collections t).map (fun e => { id := e.id, content := e.document, metadata := e.metadata })

/-- MemoryStore.export_all: for every memory type in enum order, the
collection's entries as export records. -/
def MemoryStore.export_all (s : MemoryStore) : List (MemoryType × List ExportRec) :=
  MemoryType.all.map (fun t => (t, exportRecsOf s t))

/-- The inner loop of MemoryStore.import_memories over one export group:
rebuild every record with from_storage_dict, store it, and count it. -/
def importStep (acc : MemoryStore × Nat) (recs : List ExportRec) : MemoryStore × Nat :=
  recs.foldl (fun acc2 r =>
    ((MemoryStore.store acc2.1 (from_storage_dict r.metadata r.content)).1, acc2.2 + 1)) acc

/-- MemoryStore.import_memories: every export group in order through
importStep. The dict key is only re-parsed as a MemoryType by the source
and otherwise unused (store routes by the rebuilt record's own type), so it
is ignored here. -/
def MemoryStore.import_memories (s : MemoryStore)
    (data : List (MemoryType × List ExportRec)) : MemoryStore × Nat :=
  data.foldl (fun acc group => importStep acc group.2) (s, 0)

/-- The collection entry MemoryStore.store writes for an imported export
record: the rebuilt record's id, content, embedding and re-derived
metadata. -/
def entryOfRec (engine : EmbeddingEngine) (r : ExportRec) : CollEntry :=
  { id := (from_storage_dict r.metadata r.content).id
    embedding := engine.embed (from_storage_dict r.metadata r.content).content
    document := (from_storage_dict r.metadata r.content).content
    metadata := (from_storage_dict r.metadata r.content).to_storage_dict }

/-- MemoryStore.count with no type filter: total entries over all
collections. -/
def MemoryStore.count (s : MemoryStore) : Nat :=
  (MemoryType.all.map (fun t => (s.collections t).length)).sum

/-! ## Facade (src/opus_memory/system.py) -/

/-- MemorySystem.store_procedural. The uuid the Memory constructor would
draw and the creation timestamp are passed in as new_id and now_iso; the
source returns only the stored id, while this model returns the
ProceduralMemory record handed to MemoryStore.store together with the
updated store, so that theorems can inspect the stored fields. The pydantic
defaults of the fields the call site does not set (decay_rate 0, source
None, consent_given True) are written out. -/
def store_procedural (cfg : ConsentConfig) (st : MemoryStore) (new_id : String)
    (now_iso : String) (content : String) (outcome : String)
    (context : Option String) (times_applied : Int) (success_rate : ℚ)
    (tags : List String) (confidence : ConfidenceLevel) :
    Option (MemoryM × MemoryStore) :=
  let salience : ℚ :=
    if outcome = "positive" then mkRat 7 10
    else if outcome = "negative" then mkRat 3 5
    else mkRat 1 2
  let consent_result := check_storage_consent cfg content MemoryType.procedural
    StorageReason.behavioral_insight salience true
  if consent_result.should_proceed then
    let memory : MemoryM := {
      id := new_id
      content := pyOr consent_result.modified_content content
      created_at := now_iso
      updated_at := now_iso
      confidence := confidence
      salience := salience
      decay_rate := 0
      tags := tags
      source := none
      consent_given := true
      kind_data := KindData.procedural outcome context times_applied
        (if outcome = "positive" then success_rate else 0) }
    some (memory, (MemoryStore.store st memory).1)
  else
    none

/-! ## Concrete fixtures for witness instantiations -/

/-- A trivial embedding collaborator for concrete instantiations. -/
def trivEngine : EmbeddingEngine :=
  { embed := fun _ => [], similarity := fun _ _ => 0 }

/-- A store with empty collections and empty search results, for concrete
instantiations. -/
def trivStore : MemoryStore :=
  { embedding_engine := trivEngine
    search := fun _ _ _ _ _ => []
    search_by_embedding := fun _ _ _ _ _ _ => []
    collections := fun _ => [] }

/-- A concrete semantic record. -/
def wSem : MemoryM :=
  { id := "b"
    content := "we talked about the rain today"
    created_at := "2024-01-01T00:00:00"
    updated_at := "2024-01-01T00:00:00"
    kind_data := KindData.semantic "general" none none }

/-- A concrete identity record with salience above 0.7. -/
def wIdent : MemoryM :=
  { id := "i1"
    content := "honesty matters most"
    created_at := "2024-01-01T00:00:00"
    updated_at := "2024-01-01T00:00:00"
    salience := mkRat 4 5
    kind_data := KindData.identity "value" none 1 }

/-- A concrete episodic record with salience above 0.7. -/
def wEpi : MemoryM :=
  { id := "e1"
    content := "sunny afternoon in the park"
    created_at := "2024-01-01T00:00:00"
    updated_at := "2024-01-01T00:00:00"
    salience := mkRat 4 5
    kind_data := KindData.episodic [] 0 none none }

/-- The procedural record stored by the negative-outcome witness call. -/
def wProcNeg : MemoryM :=
  { id := "p1"
    content := "summarize findings before answering"
    created_at := "t0"
    updated_at := "t0"
    confidence := ConfidenceLevel.confident
    salience := mkRat 3 5
    decay_rate := 0
    tags := []
    source := none
    consent_given := true
    kind_data := KindData.procedural "negative" none 1 0 }

/-- The procedural record stored by the positive-outcome witness call. -/
def wProcPos : MemoryM :=
  { id := "p2"
    content := "summarize findings before answering"
    created_at := "t0"
    updated_at := "t0"
    confidence := ConfidenceLevel.confident
    salience := mkRat 7 10
    decay_rate := 0
    tags := []
    source := none
    consent_given := true
    kind_data := KindData.procedural "positive" none 1 (mkRat 9 10) }

/-- Consent configuration of the redaction witness. -/
def wCfgRedact : ConsentConfig :=
  { redact_patterns := ["hunter2"] }

/-- Decidable list membership as a plain Boolean function, used to state
"appears in exactly one cluster" as a filter count. -/
def memb {α : Type} [DecidableEq α] (a : α) : List α → Bool
  | [] => false
  | b :: t => if a = b then true else memb a t

/-- An episodic record for the round-trip witness store. -/
def wEpiMem : MemoryM :=
  { id := "e9"
    content := "we watched the rain together"
    created_at := "2024-01-01T00:00:00"
    updated_at := "2024-01-01T00:00:00"
    salience := mkRat 3 5
    tags := ["weather", "evening"]
    kind_data := KindData.episodic ["rain"] (mkRat 1 2) none none }

/-- The collection entry holding wEpiMem, as MemoryStore.store would write
it. -/
def wEntry : CollEntry :=
  { id := wEpiMem.id
    embedding := []
    document := wEpiMem.content
    metadata := wEpiMem.to_storage_dict }

/-- Collections of the round-trip witness store: one episodic entry. -/
def wColl : MemoryType → List CollEntry
  | MemoryType.episodic => [wEntry]
  | _ => []

/-- The round-trip witness store. -/
def wStore : MemoryStore :=
  { trivStore with collections := wColl }

/-! ## Claim theorems -/

/-- Membership in the deletion set survives any later sequence of
request_deletion calls. -/
theorem mem_foldl_request_deletion (ids : List String) :
    ∀ (st : List String) (a : String), a ∈ st →
      a ∈ ids.foldl (fun s i => (request_deletion s i).2) st := by
  induction ids with
  | nil => intro st a h; exact h
  | cons i ids ih =>
    intro st a h
    exact ih _ _ (List.mem_insert_of_mem h)

/-- Every pair surviving the retrieval filter has an id outside the
deletion set. -/
theorem retrievalFilterGo_id_not_deleted (deletions : List String)
    (cfg : ConsentConfig) (reason : RetrievalReason) :
    ∀ (cands : List (MemoryM × ℚ)) (p : MemoryM × ℚ),
      p ∈ retrievalFilterGo deletions cfg reason cands → p.1.id ∉ deletions := by
  intro cands
  induction cands with
  | nil => intro p h; simp [retrievalFilterGo] at h
  | cons q rest ih =>
    obtain ⟨m, sim⟩ := q
    intro p h
    simp only [retrievalFilterGo] at h
    split_ifs at h with h1 h2 h3 h4
    · exact ih p h
    · exact ih p h
    · rcases List.mem_cons.mp h with h5 | h5
      · subst h5; exact h1
      · exact ih p h5
    · exact ih p h
    · rcases List.mem_cons.mp h with h5 | h5
      · subst h5; exact h1
      · exact ih p h5

/-- C1: request_deletion succeeds, succeeds again on the same id
(idempotence), and after deleting an id - whatever further deletions are
requested afterwards - no record carrying that id is ever in the output of
check_retrieval_consent, even when that record is among the candidates the
backing index supplied. -/
theorem C1_deletion_idempotent_never_retrieved
    (s : List String) (target : String) (later : List String)
    (cfg : ConsentConfig) (query : String) (reason : RetrievalReason)
    (cands : List (MemoryM × ℚ)) (m : MemoryM) (sim : ℚ)
    (hmem : (m, sim) ∈ check_retrieval_consent
      (later.foldl (fun st i => (request_deletion st i).2) (request_deletion s target).2)
      cfg query reason cands) :
    (request_deletion s target).1 = true ∧
    (request_deletion (request_deletion s target).2 target).1 = true ∧
    m.id ≠ target := by
  refine ⟨rfl, rfl, fun heq => ?_⟩
  have hin : target ∈ later.foldl (fun st i => (request_deletion st i).2)
      (request_deletion s target).2 :=
    mem_foldl_request_deletion later _ target (List.mem_insert_self target s)
  have hnot : m.id ∉ later.foldl (fun st i => (request_deletion st i).2)
      (request_deletion s target).2 := by
    refine retrievalFilterGo_id_not_deleted _ cfg reason cands (m, sim) ?_
    simpa only [check_retrieval_consent] using List.mem_of_mem_take hmem
  exact hnot (heq ▸ hin)

/-- C1 witness: delete "a" from an empty deletion state; a candidate with
id "b" survives an explicit-request retrieval check, so the theorem applies
and all three conclusions hold at this instance. -/
theorem C1_witness :
    (request_deletion [] "a").1 = true ∧
    (request_deletion (request_deletion [] "a").2 "a").1 = true ∧
    wSem.id ≠ "a" :=
  C1_deletion_idempotent_never_retrieved [] "a" [] {} "rain" RetrievalReason.explicit_request
    [(wSem, mkRat 9 10)] wSem (mkRat 9 10) (by with_unfolding_all decide)

/-- C2: whenever some never-store pattern matches the content
case-insensitively, check_storage_consent rejects and the result carries no
modified content - in particular no partially redacted content, whatever
the redaction patterns are. -/
theorem C2_never_store_wins (cfg : ConsentConfig) (content : String)
    (memory_type : MemoryType) (reason : StorageReason) (salience : ℚ)
    (user_consented : Bool)
    (h : ∃ p ∈ cfg.never_store_patterns, containsCI content p = true) :
    (check_storage_consent cfg content memory_type reason salience user_consented).should_proceed
      = false ∧
    (check_storage_consent cfg content memory_type reason salience user_consented).modified_content
      = none := by
  obtain ⟨q, hq⟩ : ∃ q, cfg.never_store_patterns.find? (fun p => containsCI content p) = some q := by
    cases hfind : cfg.never_store_patterns.find? (fun p => containsCI content p) with
    | none =>
      rcases h with ⟨p, hp, hcp⟩
      exact absurd hcp (by simpa using List.find?_eq_none.mp hfind p hp)
    | some q => exact ⟨q, rfl⟩
  constructor <;> simp [check_storage_consent, hq]

/-- C2 witness: with never-store pattern "ssn" and a redaction pattern
matching the same substring, content containing "SSN" is rejected with no
modified content. -/
theorem C2_witness :
    (check_storage_consent
      { never_store_patterns := ["ssn"], redact_patterns := ["ssn"] }
      "my SSN is 1234" MemoryType.semantic StorageReason.user_request (mkRat 1 2) true).should_proceed
      = false ∧
    (check_storage_consent
      { never_store_patterns := ["ssn"], redact_patterns := ["ssn"] }
      "my SSN is 1234" MemoryType.semantic StorageReason.user_request (mkRat 1 2) true).modified_content
      = none :=
  C2_never_store_wins _ _ _ _ _ _ ⟨"ssn", by with_unfolding_all decide⟩

/-- The retrieval filter under reason explicit_request is exactly the
deletion-set and base-threshold filter. -/
theorem retrievalFilterGo_explicit (deletions : List String) (cfg : ConsentConfig) :
    ∀ cands : List (MemoryM × ℚ),
      retrievalFilterGo deletions cfg RetrievalReason.explicit_request cands
        = cands.filter (fun p =>
            decide (p.1.id ∉ deletions) && decide (cfg.require_relevance_threshold ≤ p.2)) := by
  intro cands
  induction cands with
  | nil => rfl
  | cons q rest ih =>
    obtain ⟨m, sim⟩ := q
    by_cases h1 : m.id ∈ deletions
    · simp [retrievalFilterGo, h1, ih, List.filter_cons]
    · by_cases h2 : sim < cfg.require_relevance_threshold
      · simp [retrievalFilterGo, h1, h2, not_le.mpr h2, ih, List.filter_cons]
      · simp [retrievalFilterGo, h1, h2, not_lt.mp h2, ih, List.filter_cons]

/-- The retrieval filter under reason context_triggered is exactly the
deletion-set and strict (threshold plus 0.1) filter. -/
theorem retrievalFilterGo_context (deletions : List String) (cfg : ConsentConfig) :
    ∀ cands : List (MemoryM × ℚ),
      retrievalFilterGo deletions cfg RetrievalReason.context_triggered cands
        = cands.filter (fun p =>
            decide (p.1.id ∉ deletions) &&
            decide (cfg.require_relevance_threshold + mkRat 1 10 ≤ p.2)) := by
  have hstep : (0 : ℚ) < mkRat 1 10 := by with_unfolding_all decide
  intro cands
  induction cands with
  | nil => rfl
  | cons q rest ih =>
    obtain ⟨m, sim⟩ := q
    by_cases h1 : m.id ∈ deletions
    · simp [retrievalFilterGo, h1, ih, List.filter_cons]
    · by_cases h2 : sim < cfg.require_relevance_threshold
      · have h2' : ¬ cfg.require_relevance_threshold + mkRat 1 10 ≤ sim := by
          intro hc; exact absurd (le_trans (by linarith) hc) (not_le.mpr h2)
        simp [retrievalFilterGo, h1, h2, h2', ih, List.filter_cons]
      · by_cases h3 : sim < cfg.require_relevance_threshold + mkRat 1 10
        · simp [retrievalFilterGo, h1, h2, h3, not_le.mpr h3, ih, List.filter_cons]
        · simp [retrievalFilterGo, h1, h2, h3, not_lt.mp h3, ih, List.filter_cons]

/-- C4: check_retrieval_consent with reason explicit_request returns
exactly the candidates surviving the deletion-set and base
relevance-threshold filters (truncated to the configured maximum), never
applying the stricter bar; with reason context_triggered it returns exactly
the candidates whose similarity reaches the threshold plus 0.1 (and whose
ids are not deleted), truncated likewise. -/
theorem C4_explicit_lenient_context_strict (deletions : List String)
    (cfg : ConsentConfig) (query : String) (cands : List (MemoryM × ℚ)) :
    check_retrieval_consent deletions cfg query RetrievalReason.explicit_request cands
      = (cands.filter (fun p =>
          decide (p.1.id ∉ deletions) &&
          decide (cfg.require_relevance_threshold ≤ p.2))).take cfg.max_results_per_query ∧
    check_retrieval_consent deletions cfg query RetrievalReason.context_triggered cands
      = (cands.filter (fun p =>
          decide (p.1.id ∉ deletions) &&
          decide (cfg.require_relevance_threshold + mkRat 1 10 ≤ p.2))).take cfg.max_results_per_query := by
  constructor
  · simp [check_retrieval_consent, retrievalFilterGo_explicit]
  · simp [check_retrieval_consent, retrievalFilterGo_context]

/-- Folding max from an initial value max a b pulls b out of the fold. -/
theorem foldr_max_init (l : List ℚ) :
    ∀ a b : ℚ, l.foldr max (max a b) = max b (l.foldr max a) := by
  induction l with
  | nil => intro a b; exact max_comm a b
  | cons c l ih =>
    intro a b
    simp only [List.foldr_cons, ih]
    exact max_left_comm c b (l.foldr max a)

/-- A left fold of max equals the right fold of max (max is commutative
and associative). -/
theorem foldl_max_eq_foldr_max (l : List ℚ) :
    ∀ a : ℚ, l.foldl max a = l.foldr max a := by
  induction l with
  | nil => intro a; rfl
  | cons b l ih =>
    intro a
    simp only [List.foldl_cons, List.foldr_cons, ih, foldr_max_init]

/-- C5: calculate_salience equals the clamp to the unit interval of
0.5 + |emotionalValence| * 0.3 + (0.2 when identity-related) + the novelty
bonus (1 - max similarity to the prior vectors) * 0.2 when prior vectors
are supplied (no novelty term otherwise), and the output always lies in
[0, 1]. -/
theorem C5_salience_formula_and_range (engine : EmbeddingEngine) (content : String)
    (emotional_valence : ℚ) (existing_embeddings : Option (List (List ℚ)))
    (is_identity_related : Bool) :
    calculate_salience engine content emotional_valence existing_embeddings is_identity_related
      = clamp01 (mkRat 1 2 + |emotional_valence| * mkRat 3 10
          + (if is_identity_related then mkRat 1 5 else 0)
          + noveltySpec engine content existing_embeddings) ∧
    0 ≤ calculate_salience engine content emotional_valence existing_embeddings
          is_identity_related ∧
    calculate_salience engine content emotional_valence existing_embeddings
          is_identity_related ≤ 1 := by
  have heq : calculate_salience engine content emotional_valence existing_embeddings
      is_identity_related
      = clamp01 (mkRat 1 2 + |emotional_valence| * mkRat 3 10
          + (if is_identity_related then mkRat 1 5 else 0)
          + noveltySpec engine content existing_embeddings) := by
    cases existing_embeddings with
    | none =>
      cases is_identity_related <;>
        simp [calculate_salience, salienceUnclamped, salienceBase, noveltySpec, clamp01]
    | some l =>
      cases l with
      | nil =>
        cases is_identity_related <;>
          simp [calculate_salience, salienceUnclamped, salienceBase, noveltySpec, clamp01]
      | cons e es =>
        have hmax : es.foldl
            (fun acc x => max acc (engine.similarity (engine.embed content) x))
            (engine.similarity (engine.embed content) e)
            = (es.map (engine.similarity (engine.embed content))).foldr max
              (engine.similarity (engine.embed content) e) := by
          rw [← List.foldl_map, foldl_max_eq_foldr_max]
        cases is_identity_related <;>
          simp [calculate_salience, salienceUnclamped, salienceBase, maxSimTo,
            noveltySpec, clamp01, hmax]
  refine ⟨heq, ?_, ?_⟩ <;> rw [heq] <;> simp only [clamp01]
  · exact le_min (by norm_num) (le_max_left _ _)
  · exact min_le_left _ _

/-- C6 counterexample: a record with salience above 0.7 that
is_this_relevant_or_pattern_matching judges not relevant - here an identity
record with salience 0.8 at similarity 0.5, rejected by the
identity/procedural rule before the salience rule is reached. This refutes
the claim that salience above 0.7 makes a record relevant regardless of the
preceding criteria. -/
theorem C6_counterexample :
    mkRat 7 10 < wIdent.salience ∧
    (is_this_relevant_or_pattern_matching "weather" wIdent (mkRat 1 2)).1 = false := by
  with_unfolding_all decide

/-- C6 amended: identity and procedural records with similarity below 0.6
are rejected regardless of lexical overlap (and regardless of salience);
a record with salience above 0.7 is judged relevant provided neither of
the earlier rejection rules fired, namely the keyword-coincidence rule
(overlap above 0.5 with similarity below 0.6) and the identity/procedural
rule (similarity below 0.6). -/
theorem C6_amended_relevance_rules (query : String) (memory : MemoryM) (similarity : ℚ) :
    ((memory.memory_type = MemoryType.identity ∨ memory.memory_type = MemoryType.procedural) →
      similarity < mkRat 3 5 →
      (is_this_relevant_or_pattern_matching query memory similarity).1 = false) ∧
    (mkRat 7 10 < memory.salience →
      ¬(mkRat 1 2 < wordOverlap query memory.content ∧ similarity < mkRat 3 5) →
      ¬((memory.memory_type = MemoryType.identity ∨ memory.memory_type = MemoryType.procedural) ∧
          similarity < mkRat 3 5) →
      (is_this_relevant_or_pattern_matching query memory similarity).1 = true) := by
  constructor
  · intro htype hsim
    have h85 : ¬ (mkRat 17 20 < similarity) := by
      intro hc
      have hlt : (mkRat 17 20 : ℚ) < mkRat 3 5 := lt_trans hc hsim
      exact absurd hlt (by with_unfolding_all decide)
    simp only [is_this_relevant_or_pattern_matching]
    rw [if_neg h85]
    by_cases hov : mkRat 1 2 < wordOverlap query memory.content ∧ similarity < mkRat 3 5
    · rw [if_pos hov]
    · rw [if_neg hov, if_pos ⟨htype, hsim⟩]
  · intro hsal hov htyp
    by_cases h85 : mkRat 17 20 < similarity
    · simp only [is_this_relevant_or_pattern_matching]
      rw [if_pos h85]
    · simp only [is_this_relevant_or_pattern_matching]
      rw [if_neg h85, if_neg hov, if_neg htyp, if_pos hsal]

/-- C6 witness: the identity record wIdent at similarity 0.5 is rejected by
the first amended rule; the episodic record wEpi with salience 0.8 at
similarity 0.55 is accepted by the second. -/
theorem C6_amended_witness :
    (is_this_relevant_or_pattern_matching "weather" wIdent (mkRat 1 2)).1 = false ∧
    (is_this_relevant_or_pattern_matching "weather" wEpi (mkRat 11 20)).1 = true :=
  ⟨(C6_amended_relevance_rules "weather" wIdent (mkRat 1 2)).1
      (Or.inl (by with_unfolding_all decide)) (by with_unfolding_all decide),
   (C6_amended_relevance_rules "weather" wEpi (mkRat 11 20)).2
      (by with_unfolding_all decide) (by with_unfolding_all decide)
      (by with_unfolding_all decide)⟩

/-- C8: when the primary search comes back empty or lateral expansion is 0,
search_associative skips expansion, clustering and pattern extraction: the
associated list and the pattern list are empty, and the cluster list
carries exactly the primary result set - as the one cluster when the
primary set is non-empty, as no cluster at all when it is empty (a cluster
is non-empty by the data model of the spec). -/
theorem C8_degenerate_single_cluster (store : MemoryStore) (query : String)
    (memory_types : Option (List MemoryType)) (n_results : Nat) (min_salience : ℚ)
    (include_decayed : Bool) (lateral_expansion : Int) (similarity_threshold : ℚ)
    (h : store.search query memory_types n_results min_salience include_decayed = [] ∨
      lateral_expansion = 0) :
    (search_associative store query memory_types n_results min_salience include_decayed
        lateral_expansion similarity_threshold).primary_results
      = store.search query memory_types n_results min_salience include_decayed ∧
    (search_associative store query memory_types n_results min_salience include_decayed
        lateral_expansion similarity_threshold).associated_memories = [] ∧
    (search_associative store query memory_types n_results min_salience include_decayed
        lateral_expansion similarity_threshold).patterns = [] ∧
    (search_associative store query memory_types n_results min_salience include_decayed
        lateral_expansion similarity_threshold).clusters.flatten
      = store.search query memory_types n_results min_salience include_decayed ∧
    (store.search query memory_types n_results min_salience include_decayed ≠ [] →
      (search_associative store query memory_types n_results min_salience include_decayed
        lateral_expansion similarity_threshold).clusters
        = [store.search query memory_types n_results min_salience include_decayed]) := by
  have hg : (store.search query memory_types n_results min_salience include_decayed).isEmpty
      = true ∨ lateral_expansion ≤ 0 := by
    rcases h with h | h
    · exact Or.inl (by simp [h])
    · exact Or.inr (le_of_eq h)
  simp only [search_associative]
  rw [if_pos hg]
  refine ⟨rfl, rfl, rfl, ?_, ?_⟩
  · by_cases hp : store.search query memory_types n_results min_salience include_decayed = []
    · simp [hp]
    · simp [hp]
  · intro hp
    simp [hp]

/-- C8 witness: the trivial store's primary search is empty, so the
degenerate branch applies (here with lateral expansion 3). -/
theorem C8_witness :
    (search_associative trivStore "gift ideas" none 10 0 false 3 (mkRat 11 20)).primary_results
      = trivStore.search "gift ideas" none 10 0 false ∧
    (search_associative trivStore "gift ideas" none 10 0 false 3 (mkRat 11 20)).associated_memories
      = [] ∧
    (search_associative trivStore "gift ideas" none 10 0 false 3 (mkRat 11 20)).patterns = [] ∧
    (search_associative trivStore "gift ideas" none 10 0 false 3 (mkRat 11 20)).clusters.flatten
      = trivStore.search "gift ideas" none 10 0 false ∧
    (trivStore.search "gift ideas" none 10 0 false ≠ [] →
      (search_associative trivStore "gift ideas" none 10 0 false 3 (mkRat 11 20)).clusters
        = [trivStore.search "gift ideas" none 10 0 false]) :=
  C8_degenerate_single_cluster trivStore "gift ideas" none 10 0 false 3 (mkRat 11 20)
    (Or.inl rfl)

/-- C10: a store_procedural call that passes the consent check stores a
record whose success_rate is the caller's argument exactly when the outcome
is "positive"; for outcome "negative" or "neutral" the stored success_rate
is 0 regardless of the argument. The bounds hypothesis restricts the
argument to the valid range of the pydantic field (out-of-range values
raise instead of storing). -/
theorem C10_store_procedural_success_rate (cfg : ConsentConfig) (st : MemoryStore)
    (new_id now_iso content outcome : String) (context : Option String)
    (times_applied : Int) (success_rate : ℚ) (tags : List String)
    (confidence : ConfidenceLevel) (m : MemoryM) (st2 : MemoryStore)
    (_hv : 0 ≤ success_rate ∧ success_rate ≤ 1)
    (heq : store_procedural cfg st new_id now_iso content outcome context
      times_applied success_rate tags confidence = some (m, st2)) :
    (outcome = "positive" → m.successRate = some success_rate) ∧
    ((outcome = "negative" ∨ outcome = "neutral") → m.successRate = some 0) := by
  constructor
  · intro hpos
    subst hpos
    simp [store_procedural] at heq
    obtain ⟨hc, hm, hst⟩ := heq
    rw [← hm]
    rfl
  · rintro (hcase | hcase) <;> subst hcase <;>
      · simp [store_procedural] at heq
        obtain ⟨hc, hm, hst⟩ := heq
        rw [← hm]
        rfl

/-- C10 witness: the same content and success-rate argument 0.9 stores
success_rate 0 under outcome "negative" and 0.9 under outcome "positive". -/
theorem C10_witness :
    wProcNeg.successRate = some 0 ∧ wProcPos.successRate = some (mkRat 9 10) :=
  ⟨(C10_store_procedural_success_rate {} trivStore "p1" "t0"
      "summarize findings before answering" "negative" none 1 (mkRat 9 10) []
      ConfidenceLevel.confident wProcNeg ((MemoryStore.store trivStore wProcNeg).1)
      ⟨by with_unfolding_all decide, by with_unfolding_all decide⟩
      (by with_unfolding_all rfl)).2 (Or.inl rfl),
   (C10_store_procedural_success_rate {} trivStore "p2" "t0"
      "summarize findings before answering" "positive" none 1 (mkRat 9 10) []
      ConfidenceLevel.confident wProcPos ((MemoryStore.store trivStore wProcPos).1)
      ⟨by with_unfolding_all decide, by with_unfolding_all decide⟩
      (by with_unfolding_all rfl)).1 rfl⟩

/-- replaceCore leaves a list without an occurrence of a pattern
unchanged, for any fuel. -/
theorem replaceCore_of_not_infix (old new : List Char) :
    ∀ (fuel : Nat) (s : List Char), ¬ old <:+: s → replaceCore old new fuel s = s := by
  intro fuel
  induction fuel with
  | zero => intro s _; cases s <;> rfl
  | succ n ih =>
    intro s h
    cases s with
    | nil => rfl
    | cons c rest =>
      rw [List.infix_cons_iff] at h
      push_neg at h
      obtain ⟨hnp, hni⟩ := h
      have hb : ¬ (old.isPrefixOf (c :: rest) = true) := fun hb =>
        hnp (List.isPrefixOf_iff_prefix.mp hb)
      simp only [replaceCore]
      rw [if_neg hb, ih rest hni]

/-- When the case-insensitive presence test fails, str.replace is the
identity: the pattern is then non-empty and does not occur
case-sensitively either. -/
theorem pyReplace_of_not_containsCI (s old new : String)
    (h : containsCI s old = false) : pyReplace s old new = s := by
  have hne : ¬ (old.toList.isEmpty = true) := by
    intro h0
    have hemp : old.data = [] := by simpa using h0
    have : containsCI s old = true := by
      simp [containsCI, lowerChars, hemp, List.nil_infix]
    rw [this] at h
    cases h
  have hlow : ¬ (lowerChars old <:+: lowerChars s) := of_decide_eq_false h
  have hinf : ¬ (old.toList <:+: s.toList) := fun hi =>
    hlow (by simpa [lowerChars] using hi.map Char.toLower)
  simp only [pyReplace]
  rw [if_neg hne, replaceCore_of_not_infix old.toList new.toList _ _ hinf]
  rfl

/-- The guarded redaction loop of the source equals the plain replace-all
fold of the spec: the case-insensitive guard only ever skips replacements
that would do nothing. -/
theorem redactGuarded_eq_redactAll (patterns : List String) (content : String) :
    redactGuarded patterns content = redactAll patterns content := by
  unfold redactGuarded redactAll
  refine List.foldl_ext _ _ content (fun c p _ => ?_)
  by_cases hc : containsCI c p = true
  · rw [if_pos hc]
  · rw [if_neg hc]
    exact (pyReplace_of_not_containsCI c p "[REDACTED]"
      (Bool.not_eq_true _ ▸ Bool.of_not_eq_true hc)).symm

/-- An accepted check_storage_consent call returns the acceptance record:
proceed, the storage-reason explanation, and the redacted content when it
differs from the input. -/
theorem check_storage_consent_accepted (cfg : ConsentConfig) (content : String)
    (memory_type : MemoryType) (reason : StorageReason) (salience : ℚ)
    (user_consented : Bool)
    (h : (check_storage_consent cfg content memory_type reason salience
      user_consented).should_proceed = true) :
    check_storage_consent cfg content memory_type reason salience user_consented
      = { should_proceed := true
          reason := storage_reason_explanation reason memory_type
          modified_content :=
            if redactGuarded cfg.redact_patterns content ≠ content
            then some (redactGuarded cfg.redact_patterns content) else none } := by
  cases hfind : cfg.never_store_patterns.find? (fun p => containsCI content p) with
  | some q => exact absurd h (by simp [check_storage_consent, hfind])
  | none =>
    simp only [check_storage_consent, hfind] at h ⊢
    by_cases h1 : (pyStrip content).length < cfg.min_content_length
    · exact absurd h (by rw [if_pos h1]; simp)
    · rw [if_neg h1] at h ⊢
      by_cases h2 : (cfg.require_explicit_consent && !user_consented) = true
      · exact absurd h (by rw [if_pos h2]; simp)
      · rw [if_neg h2] at h ⊢
        by_cases h3 : (!autoApproveFor cfg memory_type) = true
        · exact absurd h (by rw [if_pos h3]; simp)
        · rw [if_neg h3] at h ⊢
          by_cases h4 : salience < cfg.min_salience_for_auto
          · exact absurd h (by rw [if_pos h4]; simp)
          · rw [if_neg h4]

/-- C3: on every accepted check_storage_consent call the content that is
returned for storage - the modified content when one is present, the input
otherwise - is the input with every configured redaction pattern replaced
by the literal marker; and whenever that replacement changes the content,
the modified content is what is returned instead of the original. -/
theorem C3_accepted_content_redacted (cfg : ConsentConfig) (content : String)
    (memory_type : MemoryType) (reason : StorageReason) (salience : ℚ)
    (user_consented : Bool)
    (h : (check_storage_consent cfg content memory_type reason salience
      user_consented).should_proceed = true) :
    ((check_storage_consent cfg content memory_type reason salience
        user_consented).modified_content.getD content
      = redactAll cfg.redact_patterns content) ∧
    (redactAll cfg.redact_patterns content ≠ content →
      (check_storage_consent cfg content memory_type reason salience
        user_consented).modified_content
        = some (redactAll cfg.redact_patterns content)) := by
  rw [check_storage_consent_accepted cfg content memory_type reason salience
    user_consented h]
  simp only [redactGuarded_eq_redactAll]
  by_cases hch : redactAll cfg.redact_patterns content = content
  · rw [if_neg (not_not_intro hch)]
    exact ⟨hch.symm, fun hne => absurd hch hne⟩
  · rw [if_pos hch]
    exact ⟨rfl, fun _ => rfl⟩

/-- C3 witness: an accepted call with redaction pattern "hunter2" turns
"my password is hunter2" into "my password is [REDACTED]" and returns it as
the modified content. -/
theorem C3_witness :
    ((check_storage_consent wCfgRedact "my password is hunter2"
        MemoryType.semantic StorageReason.user_request (mkRat 1 2) true).modified_content.getD
        "my password is hunter2"
      = redactAll wCfgRedact.redact_patterns "my password is hunter2") ∧
    (redactAll wCfgRedact.redact_patterns "my password is hunter2" ≠ "my password is hunter2" →
      (check_storage_consent wCfgRedact "my password is hunter2"
        MemoryType.semantic StorageReason.user_request (mkRat 1 2) true).modified_content
        = some (redactAll wCfgRedact.redact_patterns "my password is hunter2")) :=
  C3_accepted_content_redacted wCfgRedact "my password is hunter2"
    MemoryType.semantic StorageReason.user_request (mkRat 1 2) true
    (by with_unfolding_all decide)

/-- The clustered-id accumulator of gatherCluster only grows. -/
theorem gather_mono (engine : EmbeddingEngine) (threshold : ℚ) (v : List ℚ) :
    ∀ (rest : List (MemoryM × ℚ)) (cl : List String) (a : String),
      a ∈ cl → a ∈ (gatherCluster engine threshold v rest cl).2 := by
  intro rest
  induction rest with
  | nil => intro cl a h; exact h
  | cons x xs ih =>
    obtain ⟨m, sim⟩ := x
    intro cl a h
    by_cases h1 : m.id ∈ cl
    · simpa only [gatherCluster, if_pos h1] using ih cl a h
    · by_cases h2 : threshold ≤ engine.similarity v (engine.embed m.content)
      · simpa only [gatherCluster, if_neg h1, if_pos h2] using
          ih (m.id :: cl) a (List.mem_cons_of_mem _ h)
      · simpa only [gatherCluster, if_neg h1, if_neg h2] using ih cl a h

/-- Every id in the accumulator returned by gatherCluster was already in
the accumulator or belongs to a scanned record. -/
theorem gather_ids (engine : EmbeddingEngine) (threshold : ℚ) (v : List ℚ) :
    ∀ (rest : List (MemoryM × ℚ)) (cl : List String) (a : String),
      a ∈ (gatherCluster engine threshold v rest cl).2 →
      a ∈ cl ∨ a ∈ rest.map (fun p => p.1.id) := by
  intro rest
  induction rest with
  | nil => intro cl a h; exact Or.inl h
  | cons x xs ih =>
    obtain ⟨m, sim⟩ := x
    intro cl a h
    by_cases h1 : m.id ∈ cl
    · rw [gatherCluster, if_pos h1] at h
      rcases ih cl a h with hc | hr
      · exact Or.inl hc
      · exact Or.inr (List.mem_cons_of_mem _ hr)
    · by_cases h2 : threshold ≤ engine.similarity v (engine.embed m.content)
      · rw [gatherCluster, if_neg h1, if_pos h2] at h
        rcases ih (m.id :: cl) a h with hc | hr
        · rcases List.mem_cons.mp hc with he | hc2
          · exact Or.inr (he ▸ List.mem_cons_self _ _)
          · exact Or.inl hc2
        · exact Or.inr (List.mem_cons_of_mem _ hr)
      · rw [gatherCluster, if_neg h1, if_neg h2] at h
        rcases ih cl a h with hc | hr
        · exact Or.inl hc
        · exact Or.inr (List.mem_cons_of_mem _ hr)

/-- Accounting lemma for one gatherCluster pass over a pool with pairwise
distinct ids: the gathered records together with the scanned records left
unclustered afterwards are a permutation of the scanned records that were
unclustered before the pass. -/
theorem gather_perm (engine : EmbeddingEngine) (threshold : ℚ) (v : List ℚ) :
    ∀ (rest : List (MemoryM × ℚ)) (cl : List String),
      (rest.map (fun p => p.1.id)).Nodup →
      ((gatherCluster engine threshold v rest cl).1 ++
        rest.filter (fun p => !decide (p.1.id ∈ (gatherCluster engine threshold v rest cl).2))).Perm
        (rest.filter (fun p => !decide (p.1.id ∈ cl))) := by
  intro rest
  induction rest with
  | nil => intro cl _; rfl
  | cons x xs ih =>
    obtain ⟨m, sim⟩ := x
    intro cl hnd
    rw [List.map_cons, List.nodup_cons] at hnd
    by_cases h1 : m.id ∈ cl
    · have h2 := gather_mono engine threshold v xs cl m.id h1
      simp only [gatherCluster, if_pos h1]
      simpa [List.filter_cons, h1, h2] using ih cl hnd.2
    · by_cases h2 : threshold ≤ engine.similarity v (engine.embed m.content)
      · have hmem2 : m.id ∈ (gatherCluster engine threshold v xs (m.id :: cl)).2 :=
          gather_mono engine threshold v xs (m.id :: cl) m.id (List.mem_cons_self _ _)
        simp only [gatherCluster, if_neg h1, if_pos h2]
        simp [List.filter_cons, hmem2, h1]
        have hfe : xs.filter (fun p => !decide (p.1.id ∈ (m.id :: cl)))
            = xs.filter (fun p => !decide (p.1.id ∈ cl)) := by
          refine List.filter_congr (fun p hp => ?_)
          have hne : p.1.id ≠ m.id := fun hh =>
            hnd.1 (hh ▸ List.mem_map_of_mem (fun q => q.1.id) hp)
          simp [List.mem_cons, hne]
        exact hfe ▸ ih (m.id :: cl) hnd.2
      · have hnotin : m.id ∉ (gatherCluster engine threshold v xs cl).2 := by
          intro hin
          rcases gather_ids engine threshold v xs cl m.id hin with hc | hr
          · exact h1 hc
          · exact hnd.1 hr
        simp only [gatherCluster, if_neg h1, if_neg h2]
        simp [List.filter_cons, hnotin, h1]
        exact List.Perm.trans List.perm_middle (List.Perm.cons _ (ih cl hnd.2))

/-- Accounting for the outer clustering loop over a pool with pairwise
distinct ids: the clusters flatten to a permutation of the records that
were unclustered going in, and every emitted cluster is non-empty. -/
theorem clusterStep_spec (engine : EmbeddingEngine) (threshold : ℚ) :
    ∀ (l : List (MemoryM × ℚ)) (cl : List String),
      (l.map (fun p => p.1.id)).Nodup →
      ((clusterStep engine threshold l cl).flatten.Perm
        (l.filter (fun p => !decide (p.1.id ∈ cl)))) ∧
      (∀ c ∈ clusterStep engine threshold l cl, c ≠ []) := by
  intro l
  induction l with
  | nil => intro cl _; exact ⟨by rfl, by simp [clusterStep]⟩
  | cons x xs ih =>
    obtain ⟨m, sim⟩ := x
    intro cl hnd
    rw [List.map_cons, List.nodup_cons] at hnd
    by_cases h1 : m.id ∈ cl
    · have hrec := ih cl hnd.2
      constructor
      · simp only [clusterStep, if_pos h1]
        simpa [List.filter_cons, h1] using hrec.1
      · intro c hc
        rw [clusterStep, if_pos h1] at hc
        exact hrec.2 c hc
    · constructor
      · simp only [clusterStep, if_neg h1]
        simp [List.filter_cons, h1]
        have hrec := (ih (gatherCluster engine threshold (engine.embed m.content)
          xs (m.id :: cl)).2 hnd.2).1
        have hg := gather_perm engine threshold (engine.embed m.content) xs (m.id :: cl) hnd.2
        have hfe : xs.filter (fun p => !decide (p.1.id ∈ (m.id :: cl)))
            = xs.filter (fun p => !decide (p.1.id ∈ cl)) := by
          refine List.filter_congr (fun p hp => ?_)
          have hne : p.1.id ≠ m.id := fun hh =>
            hnd.1 (hh ▸ List.mem_map_of_mem (fun q => q.1.id) hp)
          simp [List.mem_cons, hne]
        have h3 := (List.Perm.append_left
          (gatherCluster engine threshold (engine.embed m.content) xs (m.id :: cl)).1
          hrec).trans hg
        rwa [hfe] at h3
      · intro c hc
        rw [clusterStep, if_neg h1] at hc
        rcases List.mem_cons.mp hc with he | hc2
        · rw [he]; exact List.cons_ne_nil _ _
        · exact (ih _ hnd.2).2 c hc2

/-- memb is membership. -/
theorem memb_iff {α : Type} [DecidableEq α] (a : α) :
    ∀ l : List α, memb a l = true ↔ a ∈ l := by
  intro l
  induction l with
  | nil => simp [memb]
  | cons b t ih =>
    by_cases h : a = b
    · simp [memb, h]
    · simp [memb, h, ih]

/-- countP distributes over flatten as a sum. -/
theorem countP_flatten_sum {α : Type} (p : α → Bool) :
    ∀ L : List (List α), L.flatten.countP p = (L.map (fun c => c.countP p)).sum := by
  intro L
  induction L with
  | nil => rfl
  | cons c L ih => simp [List.countP_append, ih]

/-- A member of a duplicate-free list is counted exactly once. -/
theorem countP_eq_one_of_nodup {α : Type} [DecidableEq α] (a : α) :
    ∀ l : List α, l.Nodup → a ∈ l → l.countP (fun x => decide (x = a)) = 1 := by
  intro l
  induction l with
  | nil => intro _ h; cases h
  | cons b t ih =>
    intro hnd hmem
    rw [List.nodup_cons] at hnd
    by_cases h : a = b
    · subst h
      have hz : t.countP (fun x => decide (x = a)) = 0 := by
        rw [List.countP_eq_zero]
        intro x hx
        simp only [decide_eq_true_eq]
        intro he
        exact hnd.1 (he ▸ hx)
      simp [List.countP_cons, hz]
    · rcases List.mem_cons.mp hmem with he | hm
      · exact absurd he h
      · have := ih hnd.2 hm
        simp [List.countP_cons, Ne.symm h, this]

/-- When an element occurs exactly once across a list of lists, exactly one
of those lists contains it. -/
theorem filter_length_one_of_countP {α : Type} [DecidableEq α] (a : α) :
    ∀ L : List (List α),
      (L.map (fun c => c.countP (fun x => decide (x = a)))).sum = 1 →
      (L.filter (fun c => memb a c)).length = 1 := by
  intro L
  induction L with
  | nil => intro h; simp at h
  | cons c L ih =>
    intro h
    simp only [List.map_cons, List.sum_cons] at h
    by_cases hm : a ∈ c
    · have h1 : 0 < c.countP (fun x => decide (x = a)) :=
        List.countP_pos_iff.mpr ⟨a, hm, by simp⟩
      have hrest : (L.map (fun c2 => c2.countP (fun x => decide (x = a)))).sum = 0 := by omega
      have hfil : L.filter (fun c2 => memb a c2) = [] := by
        rw [List.filter_eq_nil_iff]
        intro c2 hc2
        have hz := (List.sum_eq_zero_iff).mp hrest (c2.countP (fun x => decide (x = a)))
          (List.mem_map_of_mem _ hc2)
        intro hmb
        have hpos : 0 < c2.countP (fun x => decide (x = a)) :=
          List.countP_pos_iff.mpr ⟨a, (memb_iff a c2).mp hmb, by simp⟩
        omega
      simp [List.filter_cons, (memb_iff a c).mpr hm, hfil]
    · have hmb : memb a c = false := by
        cases hb : memb a c
        · rfl
        · exact absurd ((memb_iff a c).mp hb) hm
      have h0 : c.countP (fun x => decide (x = a)) = 0 := by
        rw [List.countP_eq_zero]
        intro x hx
        simp only [decide_eq_true_eq]
        intro he
        exact hm (he ▸ hx)
      simp [List.filter_cons, hmb]
      exact ih (by omega)

/-- C7: over any pool of similarity results with pairwise distinct ids,
_cluster_memories produces clusters such that every cluster is non-empty,
the clusters together are a permutation of the pool, and every input record
lies in exactly one cluster; a pool of exactly one record yields exactly
one singleton cluster, for which _extract_patterns emits no pattern. -/
theorem C7_clustering_partition (engine : EmbeddingEngine)
    (memories : List (MemoryM × ℚ)) (threshold : ℚ)
    (hnodup : (memories.map (fun p => p.1.id)).Nodup) :
    (∀ c ∈ _cluster_memories engine memories threshold, c ≠ []) ∧
    ((_cluster_memories engine memories threshold).flatten.Perm memories) ∧
    (∀ p ∈ memories,
      ((_cluster_memories engine memories threshold).filter
        (fun c => memb p c)).length = 1) ∧
    (∀ m s, memories = [(m, s)] →
      _cluster_memories engine memories threshold = [[(m, s)]] ∧
      _extract_patterns (_cluster_memories engine memories threshold) = []) := by
  have hsingle : ∀ (m : MemoryM) (s : ℚ), memories = [(m, s)] →
      _cluster_memories engine memories threshold = [[(m, s)]] ∧
      _extract_patterns (_cluster_memories engine memories threshold) = [] := by
    intro m s hms
    subst hms
    have hsort : (([(m, s)] : List (MemoryM × ℚ)).mergeSort (fun x y => y.2 ≤ x.2))
        = [(m, s)] := List.perm_singleton.mp (List.mergeSort_perm _ _)
    have hone : _cluster_memories engine [(m, s)] threshold = [[(m, s)]] := by
      simp [_cluster_memories, hsort, clusterStep, gatherCluster]
    refine ⟨hone, ?_⟩
    rw [hone]
    rfl
  by_cases hemp : memories.isEmpty
  · have hM : memories = [] := by simpa using hemp
    subst hM
    refine ⟨?_, ?_, ?_, hsingle⟩ <;> simp [_cluster_memories]
  · have hperm : (memories.mergeSort (fun x y => y.2 ≤ x.2)).Perm memories :=
      List.mergeSort_perm memories _
    have hnd2 : ((memories.mergeSort (fun x y => y.2 ≤ x.2)).map
        (fun p => p.1.id)).Nodup := hnodup.perm (hperm.symm.map _)
    have hspec := clusterStep_spec engine threshold
      (memories.mergeSort (fun x y => y.2 ≤ x.2)) [] hnd2
    have hcm : _cluster_memories engine memories threshold
        = clusterStep engine threshold (memories.mergeSort (fun x y => y.2 ≤ x.2)) [] := by
      simp [_cluster_memories, hemp]
    have hfl : (_cluster_memories engine memories threshold).flatten.Perm memories := by
      rw [hcm]
      have h1 := hspec.1
      simp only [List.not_mem_nil, decide_False, Bool.not_false, List.filter_true] at h1
      exact h1.trans hperm
    refine ⟨?_, hfl, ?_, hsingle⟩
    · rw [hcm]; exact hspec.2
    · intro p hp
      have hnp : memories.Nodup := hnodup.of_map
      have hcount : (_cluster_memories engine memories threshold).flatten.countP
          (fun x => decide (x = p)) = 1 := by
        rw [hfl.countP_eq]
        exact countP_eq_one_of_nodup p memories hnp hp
      refine filter_length_one_of_countP p _ ?_
      rw [← countP_flatten_sum]
      exact hcount

/-- C7 witness: a one-record pool with a concrete engine - one singleton
cluster containing the record, a one-cluster partition, and no pattern. -/
theorem C7_witness :
    (∀ c ∈ _cluster_memories trivEngine [(wSem, mkRat 9 10)] (mkRat 11 20), c ≠ []) ∧
    ((_cluster_memories trivEngine [(wSem, mkRat 9 10)] (mkRat 11 20)).flatten.Perm
      [(wSem, mkRat 9 10)]) ∧
    (∀ p ∈ [(wSem, mkRat 9 10)],
      ((_cluster_memories trivEngine [(wSem, mkRat 9 10)] (mkRat 11 20)).filter
        (fun c => memb p c)).length = 1) ∧
    (∀ m s, [(wSem, mkRat 9 10)] = [(m, s)] →
      _cluster_memories trivEngine [(wSem, mkRat 9 10)] (mkRat 11 20) = [[(m, s)]] ∧
      _extract_patterns (_cluster_memories trivEngine [(wSem, mkRat 9 10)] (mkRat 11 20)) = []) :=
  C7_clustering_partition trivEngine [(wSem, mkRat 9 10)] (mkRat 11 20)
    (by with_unfolding_all decide)

/-- from_storage_dict rebuilds a record of the metadata's memory type. -/
theorem from_storage_dict_memory_type (d : StorageMeta) (c : String) :
    (from_storage_dict d c).memory_type = d.memory_type := by
  cases hd : d.memory_type <;>
    simp [from_storage_dict, MemoryM.memory_type, hd]

/-- from_storage_dict keeps the metadata's id. -/
theorem from_storage_dict_id (d : StorageMeta) (c : String) :
    (from_storage_dict d c).id = d.id := rfl

/-- from_storage_dict takes the given content. -/
theorem from_storage_dict_content (d : StorageMeta) (c : String) :
    (from_storage_dict d c).content = c := rfl

/-- to_storage_dict writes the record's own memory type. -/
theorem to_storage_dict_memory_type (m : MemoryM) :
    m.to_storage_dict.memory_type = m.memory_type := by
  cases hk : m.kind_data <;>
    simp [MemoryM.to_storage_dict, MemoryM.memory_type, baseMeta, hk]

/-- Storing a record whose id is new to its collection appends one entry to
that collection, leaves every other collection alone, and keeps the
engine. -/
theorem store_collections_of_new (st : MemoryStore) (memory : MemoryM)
    (hnew : ∀ e ∈ st.collections memory.memory_type, e.id ≠ memory.id) :
    ((st.store memory).1.embedding_engine = st.embedding_engine) ∧
    (∀ t2, (st.store memory).1.collections t2 =
      if t2 = memory.memory_type then
        st.collections memory.memory_type ++
          [{ id := memory.id
             embedding := st.embedding_engine.embed memory.content
             document := memory.content
             metadata := memory.to_storage_dict }]
      else st.collections t2) := by
  refine ⟨rfl, fun t2 => ?_⟩
  show storeCollections st memory t2 = _
  rw [storeCollections]
  by_cases h : t2 = memory.memory_type
  · rw [if_pos h, if_pos h]
    rw [upsertEntry, if_neg ?_]
    rw [List.any_eq_true]
    push_neg
    intro e he
    simpa using hnew e he
  · rw [if_neg h, if_neg h]

/-- Importing one export group whose records all carry memory type t, with
pairwise distinct ids all new to collection t, appends the corresponding
entries to collection t in order and leaves every other collection and the
engine unchanged. -/
theorem importStep_spec (t : MemoryType) :
    ∀ (recs : List ExportRec) (acc : MemoryStore × Nat),
      (∀ r ∈ recs, r.metadata.memory_type = t) →
      ((recs.map (fun r => r.metadata.id)).Nodup) →
      (∀ r ∈ recs, ∀ e ∈ acc.1.collections t, e.id ≠ r.metadata.id) →
      ((importStep acc recs).1.embedding_engine = acc.1.embedding_engine) ∧
      (∀ t2, (importStep acc recs).1.collections t2 =
        if t2 = t then
          acc.1.collections t ++ recs.map (entryOfRec acc.1.embedding_engine)
        else acc.1.collections t2) := by
  intro recs
  induction recs with
  | nil =>
    intro acc _ _ _
    refine ⟨rfl, fun t2 => ?_⟩
    by_cases h : t2 = t
    · subst h; simp [importStep]
    · simp [importStep, h]
  | cons r rs ih =>
    intro acc hty hnd hdisj
    rw [List.map_cons, List.nodup_cons] at hnd
    have hmt : (from_storage_dict r.metadata r.content).memory_type = t := by
      rw [from_storage_dict_memory_type]
      exact hty r (List.mem_cons_self _ _)
    have hnew : ∀ e ∈ acc.1.collections (from_storage_dict r.metadata r.content).memory_type,
        e.id ≠ (from_storage_dict r.metadata r.content).id := by
      rw [hmt, from_storage_dict_id]
      exact hdisj r (List.mem_cons_self _ _)
    have hst := store_collections_of_new acc.1 (from_storage_dict r.metadata r.content) hnew
    have hstep : importStep acc (r :: rs)
        = importStep ((MemoryStore.store acc.1 (from_storage_dict r.metadata r.content)).1,
            acc.2 + 1) rs := rfl
    have hcoll1 : ∀ t2,
        (MemoryStore.store acc.1 (from_storage_dict r.metadata r.content)).1.collections t2
          = if t2 = t then acc.1.collections t ++ [entryOfRec acc.1.embedding_engine r]
            else acc.1.collections t2 := by
      intro t2
      rw [hst.2 t2, hmt]
      rfl
    have hdisj2 : ∀ r2 ∈ rs,
        ∀ e ∈ (MemoryStore.store acc.1 (from_storage_dict r.metadata r.content)).1.collections t,
          e.id ≠ r2.metadata.id := by
      intro r2 hr2 e he
      rw [hcoll1 t, if_pos rfl] at he
      rcases List.mem_append.mp he with hold | hnewe
      · exact hdisj r2 (List.mem_cons_of_mem _ hr2) e hold
      · have : e = entryOfRec acc.1.embedding_engine r := by simpa using hnewe
        rw [this]
        show (from_storage_dict r.metadata r.content).id ≠ r2.metadata.id
        rw [from_storage_dict_id]
        intro hh
        exact hnd.1 (hh ▸ List.mem_map_of_mem (fun q => q.metadata.id) hr2)
    have hrec := ih ((MemoryStore.store acc.1 (from_storage_dict r.metadata r.content)).1, acc.2 + 1)
      (fun r2 hr2 => hty r2 (List.mem_cons_of_mem _ hr2)) hnd.2 hdisj2
    rw [hstep]
    have heng : (MemoryStore.store acc.1
        (from_storage_dict r.metadata r.content)).1.embedding_engine
        = acc.1.embedding_engine := hst.1
    refine ⟨hrec.1.trans heng, fun t2 => ?_⟩
    rw [hrec.2 t2]
    by_cases h : t2 = t
    · subst h
      rw [if_pos rfl, if_pos rfl, hcoll1 t2, if_pos rfl, heng, List.append_assoc]
      rfl
    · rw [if_neg h, if_neg h, hcoll1 t2, if_neg h]

/-- The export records of a well-formed collection carry that collection's
memory type and pairwise distinct metadata ids. -/
theorem exportRecs_facts (s : MemoryStore) (t : MemoryType)
    (h1 : ∀ e ∈ s.collections t, e.metadata.memory_type = t ∧ e.metadata.id = e.id)
    (h2 : ((s.collections t).map (fun e => e.id)).Nodup) :
    (∀ r ∈ exportRecsOf s t, r.metadata.memory_type = t) ∧
    ((exportRecsOf s t).map (fun r => r.metadata.id)).Nodup := by
  constructor
  · intro r hr
    obtain ⟨e, he, rfl⟩ := List.mem_map.mp hr
    exact (h1 e he).1
  · rw [exportRecsOf, List.map_map]
    have hcg : (s.collections t).map
        ((fun r : ExportRec => r.metadata.id) ∘
          (fun e => { id := e.id, content := e.document, metadata := e.metadata }))
        = (s.collections t).map (fun e => e.id) :=
      List.map_congr_left (fun e he => (h1 e he).2)
    rw [hcg]
    exact h2

/-- The (memory type, content) pairs of the re-imported entries are those
of the original entries. -/
theorem entry_pairs (engine : EmbeddingEngine) (s : MemoryStore) (t : MemoryType) :
    ((exportRecsOf s t).map (entryOfRec engine)).map
      (fun e => (e.metadata.memory_type, e.document))
    = (s.collections t).map (fun e => (e.metadata.memory_type, e.document)) := by
  rw [exportRecsOf, List.map_map, List.map_map]
  refine List.map_congr_left (fun e _ => ?_)
  simp [Function.comp, entryOfRec, to_storage_dict_memory_type,
    from_storage_dict_memory_type, from_storage_dict_content]

/-- C9: exporting all records of a well-formed store (entries filed under
their own memory type, carrying their own id, ids unique per collection)
and importing the export into a fresh store reproduces the same total
record count and, collection by collection, the same list of (kind,
content) pairs - in particular the same set of such pairs. -/
theorem C9_export_import_round_trip (s fresh : MemoryStore)
    (hwf : ∀ t ∈ MemoryType.all,
      (∀ e ∈ s.collections t, e.metadata.memory_type = t ∧ e.metadata.id = e.id) ∧
      ((s.collections t).map (fun e => e.id)).Nodup)
    (hfresh : ∀ t, fresh.collections t = []) :
    ((fresh.import_memories s.export_all).1.count = s.count) ∧
    (∀ t ∈ MemoryType.all,
      (((fresh.import_memories s.export_all).1.collections t).map
        (fun e => (e.metadata.memory_type, e.document)))
      = ((s.collections t).map (fun e => (e.metadata.memory_type, e.document)))) := by
  have himp : fresh.import_memories s.export_all
      = importStep (importStep (importStep (importStep (fresh, 0)
          (exportRecsOf s MemoryType.episodic)) (exportRecsOf s MemoryType.semantic))
          (exportRecsOf s MemoryType.procedural)) (exportRecsOf s MemoryType.identity) := by
    simp [MemoryStore.import_memories, MemoryStore.export_all, MemoryType.all]
  have fep := exportRecs_facts s MemoryType.episodic
    (hwf MemoryType.episodic (by simp [MemoryType.all])).1
    (hwf MemoryType.episodic (by simp [MemoryType.all])).2
  have fse := exportRecs_facts s MemoryType.semantic
    (hwf MemoryType.semantic (by simp [MemoryType.all])).1
    (hwf MemoryType.semantic (by simp [MemoryType.all])).2
  have fpr := exportRecs_facts s MemoryType.procedural
    (hwf MemoryType.procedural (by simp [MemoryType.all])).1
    (hwf MemoryType.procedural (by simp [MemoryType.all])).2
  have fid := exportRecs_facts s MemoryType.identity
    (hwf MemoryType.identity (by simp [MemoryType.all])).1
    (hwf MemoryType.identity (by simp [MemoryType.all])).2
  have h1 := importStep_spec MemoryType.episodic (exportRecsOf s MemoryType.episodic)
    (fresh, 0) fep.1 fep.2 (fun r _ e he => absurd he (by simp [hfresh]))
  have hA1 : ∀ t2, (importStep (fresh, 0) (exportRecsOf s MemoryType.episodic)).1.collections t2
      = if t2 = MemoryType.episodic
        then (exportRecsOf s MemoryType.episodic).map (entryOfRec fresh.embedding_engine)
        else [] := by
    intro t2
    rw [h1.2 t2]
    by_cases h : t2 = MemoryType.episodic
    · subst h; rw [if_pos rfl, if_pos rfl, hfresh]; simp
    · rw [if_neg h, if_neg h, hfresh]
  have h2 := importStep_spec MemoryType.semantic (exportRecsOf s MemoryType.semantic)
    (importStep (fresh, 0) (exportRecsOf s MemoryType.episodic)) fse.1 fse.2
    (fun r _ e he => absurd he (by rw [hA1]; simp))
  have hA2 : ∀ t2, (importStep (importStep (fresh, 0) (exportRecsOf s MemoryType.episodic))
        (exportRecsOf s MemoryType.semantic)).1.collections t2
      = if t2 = MemoryType.semantic
        then (exportRecsOf s MemoryType.semantic).map (entryOfRec fresh.embedding_engine)
        else if t2 = MemoryType.episodic
        then (exportRecsOf s MemoryType.episodic).map (entryOfRec fresh.embedding_engine)
        else [] := by
    intro t2
    rw [h2.2 t2]
    by_cases h : t2 = MemoryType.semantic
    · subst h; rw [if_pos rfl, if_pos rfl, hA1, h1.1]; simp
    · rw [if_neg h, if_neg h]; exact hA1 t2
  have h3 := importStep_spec MemoryType.procedural (exportRecsOf s MemoryType.procedural)
    (importStep (importStep (fresh, 0) (exportRecsOf s MemoryType.episodic))
      (exportRecsOf s MemoryType.semantic)) fpr.1 fpr.2
    (fun r _ e he => absurd he (by rw [hA2]; simp))
  have hA3 : ∀ t2, (importStep (importStep (importStep (fresh, 0)
        (exportRecsOf s MemoryType.episodic)) (exportRecsOf s MemoryType.semantic))
        (exportRecsOf s MemoryType.procedural)).1.collections t2
      = if t2 = MemoryType.procedural
        then (exportRecsOf s MemoryType.procedural).map (entryOfRec fresh.embedding_engine)
        else if t2 = MemoryType.semantic
        then (exportRecsOf s MemoryType.semantic).map (entryOfRec fresh.embedding_engine)
        else if t2 = MemoryType.episodic
        then (exportRecsOf s MemoryType.episodic).map (entryOfRec fresh.embedding_engine)
        else [] := by
    intro t2
    rw [h3.2 t2]
    by_cases h : t2 = MemoryType.procedural
    · subst h; rw [if_pos rfl, if_pos rfl, hA2, h2.1.trans h1.1]; simp
    · rw [if_neg h, if_neg h]; exact hA2 t2
  have h4 := importStep_spec MemoryType.identity (exportRecsOf s MemoryType.identity)
    (importStep (importStep (importStep (fresh, 0) (exportRecsOf s MemoryType.episodic))
      (exportRecsOf s MemoryType.semantic)) (exportRecsOf s MemoryType.procedural))
    fid.1 fid.2 (fun r _ e he => absurd he (by rw [hA3]; simp))
  have hA4 : ∀ t2, (importStep (importStep (importStep (importStep (fresh, 0)
        (exportRecsOf s MemoryType.episodic)) (exportRecsOf s MemoryType.semantic))
        (exportRecsOf s MemoryType.procedural)) (exportRecsOf s MemoryType.identity)).1.collections t2
      = if t2 = MemoryType.identity
        then (exportRecsOf s MemoryType.identity).map (entryOfRec fresh.embedding_engine)
        else if t2 = MemoryType.procedural
        then (exportRecsOf s MemoryType.procedural).map (entryOfRec fresh.embedding_engine)
        else if t2 = MemoryType.semantic
        then (exportRecsOf s MemoryType.semantic).map (entryOfRec fresh.embedding_engine)
        else if t2 = MemoryType.episodic
        then (exportRecsOf s MemoryType.episodic).map (entryOfRec fresh.embedding_engine)
        else [] := by
    intro t2
    rw [h4.2 t2]
    by_cases h : t2 = MemoryType.identity
    · subst h; rw [if_pos rfl, if_pos rfl, hA3, (h3.1.trans (h2.1.trans h1.1))]; simp
    · rw [if_neg h, if_neg h]; exact hA3 t2
  constructor
  · rw [himp]
    simp only [MemoryStore.count, MemoryType.all, List.map_cons, List.map_nil,
      List.sum_cons, List.sum_nil]
    rw [hA4 MemoryType.episodic, hA4 MemoryType.semantic, hA4 MemoryType.procedural,
      hA4 MemoryType.identity]
    simp [exportRecsOf]
  · intro t ht
    rw [himp]
    simp only [MemoryType.all, List.mem_cons, List.not_mem_nil, or_false] at ht
    rcases ht with rfl | rfl | rfl | rfl <;>
      · rw [hA4]
        simp only [reduceIte]
        exact entry_pairs fresh.embedding_engine s _

/-- C9 witness: a store holding one episodic record round-trips through
export and import into a fresh store with the same count and the same
(kind, content) pairs. -/
theorem C9_witness :
    ((trivStore.import_memories wStore.export_all).1.count = wStore.count) ∧
    (∀ t ∈ MemoryType.all,
      (((trivStore.import_memories wStore.export_all).1.collections t).map
        (fun e => (e.metadata.memory_type, e.document)))
      = ((wStore.collections t).map (fun e => (e.metadata.memory_type, e.document)))) :=
  C9_export_import_round_trip wStore trivStore (by with_unfolding_all decide) (fun _ => rfl)
